import Mathlib

/-!
Verification of the RWA aggregator's price-aggregation and alert-evaluation
domain logic (`rwa_aggregator.domain` and the aggregated-prices use case).

Python `Decimal` values are modelled as exact rationals; every arithmetic
operation of the default `decimal` context (precision 28, ROUND_HALF_EVEN)
is modelled as the exact rational result rounded to 28 significant digits
with ties to even, which is value-faithful to CPython's `Decimal`
semantics for `+`, `-`, `*`, `/` and `quantize`.  Timestamps are modelled
as rational seconds since the epoch; a `timedelta` of `h` hours is
`3600 * h` seconds.  A Python function that can raise returns an `Option`
(`none` = the exception propagates).
-/

namespace RwaAgg

/-- Round a rational to the nearest integer, ties to even
(the behaviour of decimal ROUND_HALF_EVEN at a fixed exponent). -/
def rne (x : ℚ) : ℤ :=
  let f := ⌊x⌋
  let r := x - f
  if r < 1/2 then f
  else if 1/2 < r then f + 1
  else if f % 2 = 0 then f else f + 1

/-- Round `x` to an integer multiple of the unit `u`, ties to even. -/
def qRound (u x : ℚ) : ℚ := u * rne (x / u)

/-- Number of base-10 digits of a positive natural number, computed with
explicit fuel so that the kernel can evaluate it. -/
def digAux : ℕ → ℕ → ℕ
  | _, 0 => 0
  | 0, _ => 1
  | fuel+1, n+1 => if n+1 < 10 then 1 else digAux fuel ((n+1)/10) + 1

/-- Number of base-10 digits of `n` (0 for `n = 0`). -/
def digits10 (n : ℕ) : ℕ := digAux n n

/-- Adjusted decimal exponent of a nonzero rational `x`: the unique `e`
with `10^e ≤ |x| < 10^(e+1)` (Python's `Decimal.adjusted` of the exact
value). -/
def decade (x : ℚ) : ℤ :=
  let e : ℤ := (digits10 x.num.natAbs : ℤ) - (digits10 x.den : ℤ)
  if (10:ℚ) ^ e ≤ |x| then e else e - 1

/-- Round a rational to 28 significant decimal digits, ties to even:
the rounding CPython's default `decimal` context applies to every exact
arithmetic result. -/
def round28 (x : ℚ) : ℚ :=
  if x = 0 then 0 else qRound ((10:ℚ) ^ (decade x - 27)) x

/-- `Decimal` addition under the default context. -/
def decAdd (a b : ℚ) : ℚ := round28 (a + b)

/-- `Decimal` subtraction under the default context. -/
def decSub (a b : ℚ) : ℚ := round28 (a - b)

/-- `Decimal` multiplication under the default context. -/
def decMul (a b : ℚ) : ℚ := round28 (a * b)

/-- `Decimal` division under the default context (the divisors reached in
this development are nonzero, so the `DivisionByZero` trap is never hit). -/
def decDiv (a b : ℚ) : ℚ := round28 (a / b)

/-- `x.quantize(Decimal("0.0001"))` under ROUND_HALF_EVEN: round to a
multiple of 10⁻⁴. -/
def quantize4 (x : ℚ) : ℚ := qRound (1/10000) x

/-- `Spread`: immutable value object holding a bid-ask spread percentage
(`spread.py`). -/
structure Spread where
  percentage : ℚ
deriving DecidableEq, Repr

namespace Spread

/-- `Spread.calculate(bid, ask)` from `spread.py`: raises `ValueError`
(`none`) when `bid <= 0 or ask <= 0`; otherwise computes
`mid = (bid + ask) / 2`, `spread_pct = ((ask - bid) / mid) * 100` in
Decimal arithmetic and quantizes to 4 decimal places. -/
def calculate (bid ask : ℚ) : Option Spread :=
  if bid ≤ 0 ∨ ask ≤ 0 then none
  else
    let mid := decDiv (decAdd bid ask) 2
    let spread_pct := decMul (decDiv (decSub ask bid) mid) 100
    some ⟨quantize4 spread_pct⟩

/-- `Spread.is_below_threshold` from `spread.py`. -/
def is_below_threshold (s : Spread) (threshold_pct : ℚ) : Bool :=
  s.percentage < threshold_pct

end Spread

/-- `PriceSnapshot` entity (`price_snapshot.py`): one timestamped bid/ask
observation from one venue.  `fetched_at` is rational seconds since the
epoch. -/
structure PriceSnapshot where
  id : Option ℤ
  token_id : ℤ
  venue_id : ℤ
  bid : ℚ
  ask : ℚ
  volume_24h : Option ℚ
  fetched_at : ℚ
deriving DecidableEq, Repr

namespace PriceSnapshot

/-- `PriceSnapshot.mid`: `(self.bid + self.ask) / 2` in Decimal arithmetic. -/
def mid (s : PriceSnapshot) : ℚ := decDiv (decAdd s.bid s.ask) 2

/-- `PriceSnapshot.is_stale(max_age_seconds)`: true when
`(now - fetched_at).total_seconds() > max_age_seconds`, with `now` passed
explicitly since the Python code reads the wall clock. -/
def is_stale (s : PriceSnapshot) (now max_age_seconds : ℚ) : Bool :=
  max_age_seconds < now - s.fetched_at

end PriceSnapshot

/-- `AlertType` enum (`alert.py`). -/
inductive AlertType
  | spread_below
  | daily_summary
deriving DecidableEq, Repr

/-- `AlertStatus` enum (`alert.py`). -/
inductive AlertStatus
  | active
  | paused
  | deleted
deriving DecidableEq, Repr

/-- `EmailAddress` value object: the wrapped, already-validated string. -/
structure EmailAddress where
  value : String
deriving DecidableEq, Repr

/-- `Alert` entity (`alert.py`).  Timestamps are rational seconds since the
epoch; `cooldown_hours` is the integer hour count of the Python field. -/
structure Alert where
  id : Option ℤ
  email : EmailAddress
  token_id : ℤ
  threshold_pct : ℚ
  alert_type : AlertType
  status : AlertStatus
  last_triggered_at : Option ℚ
  created_at : ℚ
  cooldown_hours : ℤ
deriving DecidableEq, Repr

namespace Alert

/-- `Alert.can_trigger` from `alert.py`: active status, and strictly past
the cooldown window (`datetime.now(timezone.utc) > last_triggered_at +
timedelta(hours=cooldown_hours)`, a `timedelta` of `h` hours being
`3600 * h` seconds). -/
def can_trigger (a : Alert) (now : ℚ) : Bool :=
  if a.status ≠ AlertStatus.active then false
  else
    match a.last_triggered_at with
    | none => true
    | some t => t + 3600 * a.cooldown_hours < now

/-- `Alert.mark_triggered`: sets `last_triggered_at = now`. -/
def mark_triggered (a : Alert) (now : ℚ) : Alert :=
  { a with last_triggered_at := some now }

/-- `Alert.pause`: sets `status = PAUSED`. -/
def pause (a : Alert) : Alert :=
  { a with status := AlertStatus.paused }

/-- `Alert.activate`: sets `status = ACTIVE`. -/
def activate (a : Alert) : Alert :=
  { a with status := AlertStatus.active }

end Alert

namespace AlertPolicy

/-- `AlertPolicy.should_trigger` from `alert_policy.py`, line by line:
eligibility gate, then below-threshold check, then the crossing check when
a previous spread is supplied. -/
def should_trigger (now : ℚ) (alert : Alert) (current_spread : Spread)
    (previous_spread : Option Spread) : Bool :=
  if ¬ alert.can_trigger now then false
  else
    let threshold := alert.threshold_pct
    let is_below_now := current_spread.is_below_threshold threshold
    match previous_spread with
    | none => is_below_now
    | some p =>
        let was_at_or_above := ! p.is_below_threshold threshold
        is_below_now && was_at_or_above

/-- Explicit-state rendering of `should_trigger`: the Python body contains
no assignment to `alert` or the spreads, so the threaded state comes back
unchanged. -/
def should_trigger_st (now : ℚ) (alert : Alert) (current_spread : Spread)
    (previous_spread : Option Spread) : Bool × Alert :=
  (should_trigger now alert current_spread previous_spread, alert)

end AlertPolicy

/-- `BestPrices` result dataclass (`price_calculator.py`). -/
structure BestPrices where
  best_bid : Option PriceSnapshot
  best_ask : Option PriceSnapshot
  effective_spread : Option Spread
  venues_count : ℕ
deriving DecidableEq, Repr

/-- Python `max(l, key=f)` for `l = x :: rest`: scans left to right and
replaces the current best only on a strictly greater key, so the first
maximal element wins. -/
def pymaxBy {α : Type} (f : α → ℚ) (x : α) (rest : List α) : α :=
  rest.foldl (fun b s => if f b < f s then s else b) x

/-- Python `min(l, key=f)` for `l = x :: rest`: replaces only on a strictly
smaller key, so the first minimal element wins. -/
def pyminBy {α : Type} (f : α → ℚ) (x : α) (rest : List α) : α :=
  rest.foldl (fun b s => if f s < f b then s else b) x

namespace PriceCalculator

/-- `PriceCalculator.calculate_best_prices` from `price_calculator.py`:
staleness filter, first-maximal bid, first-minimal ask, effective spread,
fresh count.  `none` models the `ValueError` that `Spread.calculate`
raises (and this method propagates) when the selected bid or ask is not
positive. -/
def calculate_best_prices (max_staleness_seconds now : ℚ)
    (snapshots : List PriceSnapshot) : Option BestPrices :=
  let fresh_snapshots := snapshots.filter fun s => ! s.is_stale now max_staleness_seconds
  match fresh_snapshots with
  | [] => some ⟨none, none, none, 0⟩
  | x :: rest =>
      let best_bid := pymaxBy (fun s => s.bid) x rest
      let best_ask := pyminBy (fun s => s.ask) x rest
      match Spread.calculate best_bid.bid best_ask.ask with
      | none => none
      | some effective_spread =>
          some ⟨some best_bid, some best_ask, some effective_spread,
                (x :: rest).length⟩

/-- Explicit-state rendering of `calculate_best_prices`: the Python body
only reads the snapshot list (a comprehension, `max`, `min`, `len`), so
the threaded list comes back unchanged. -/
def calculate_best_prices_st (max_staleness_seconds now : ℚ)
    (snapshots : List PriceSnapshot) : Option BestPrices × List PriceSnapshot :=
  (calculate_best_prices max_staleness_seconds now snapshots, snapshots)

end PriceCalculator

/-- `VenueType` enum (`venue.py`). -/
inductive VenueType
  | cex
  | dex
  | issuer
deriving DecidableEq, Repr

/-- `ApiType` enum (`venue.py`). -/
inductive ApiType
  | rest
  | websocket
  | subgraph
deriving DecidableEq, Repr

/-- `Venue` entity (`venue.py`). -/
structure Venue where
  id : Option ℤ
  name : String
  venue_type : VenueType
  api_type : ApiType
  base_url : String
  trade_url_template : Option String
  is_active : Bool
deriving DecidableEq, Repr

namespace Venue

/-- `Venue.get_trade_url`: formats the template when it is truthy (present
and non-empty); `template.format(symbol=...)` substitutes the
`\x7bsymbol\x7d` placeholder. -/
def get_trade_url (v : Venue) (token_symbol : String) : Option String :=
  match v.trade_url_template with
  | none => none
  | some t => if t = "" then none else some (t.replace "\x7bsymbol\x7d" token_symbol)

end Venue

/-- `Token` entity, restricted to the fields the aggregated-prices use case
reads (`id`, `symbol`, `name`). -/
structure Token where
  id : Option ℤ
  symbol : String
  name : String
deriving DecidableEq, Repr

/-- `VenuePriceDTO` (`price_dto.py`). -/
structure VenuePriceDTO where
  venue_name : String
  venue_id : ℤ
  base_token_symbol : String
  quote_token_symbol : String
  bid : ℚ
  ask : ℚ
  mid_price : ℚ
  spread : ℚ
  spread_bps : ℚ
  volume_24h : Option ℚ
  timestamp : ℚ
  is_stale : Bool
  trade_url : Option String
deriving DecidableEq, Repr

/-- `BestPriceDTO` (`price_dto.py`). -/
structure BestPriceDTO where
  base_token_symbol : String
  quote_token_symbol : String
  best_bid_venue : Option String
  best_bid_venue_id : Option ℤ
  best_bid_price : Option ℚ
  best_ask_venue : Option String
  best_ask_venue_id : Option ℤ
  best_ask_price : Option ℚ
  effective_spread_pct : Option ℚ
  effective_spread_bps : Option ℚ
deriving DecidableEq, Repr

/-- `AggregatedPricesDTO` (`price_dto.py`). -/
structure AggregatedPricesDTO where
  base_token_symbol : String
  base_token_name : String
  quote_token_symbol : String
  best_prices : BestPriceDTO
  venues : List VenuePriceDTO
  num_venues : ℕ
  num_fresh_venues : ℕ
  last_updated : ℚ
deriving DecidableEq, Repr

/-- Errors of `GetAggregatedPricesUseCase.execute`: the two application
exceptions plus the propagated `ValueError` from `Spread.calculate`. -/
inductive UseCaseError
  | tokenNotFound
  | noPriceData
  | valueError
deriving DecidableEq, Repr

namespace GetAggregatedPricesUseCase

/-- Stable insert of a venue DTO into a list already sorted by descending
bid, placing it after earlier entries with a bid at least as large: the
order `list.sort(key=..., reverse=True)` produces. -/
def insertByBidDesc (v : VenuePriceDTO) : List VenuePriceDTO → List VenuePriceDTO
  | [] => [v]
  | w :: ws => if w.bid < v.bid then v :: w :: ws else w :: insertByBidDesc v ws

/-- Stable sort by descending bid (`venue_dtos.sort(key=lambda v: v.bid,
reverse=True)`). -/
def sortByBidDesc : List VenuePriceDTO → List VenuePriceDTO
  | [] => []
  | v :: vs => insertByBidDesc v (sortByBidDesc vs)

/-- `_build_venue_dtos`: per-snapshot DTO with single-venue mid, spread
and basis-point spread, optional stale filtering, then the descending-bid
sort.  `venues_by_id` is the dictionary of resolved venue metadata. -/
def build_venue_dtos (max_staleness_seconds now : ℚ)
    (venues_by_id : ℤ → Option Venue) (base_symbol quote_symbol : String)
    (include_stale : Bool) (snapshots : List PriceSnapshot) :
    List VenuePriceDTO :=
  let dtos := snapshots.filterMap fun snapshot =>
    let stale := snapshot.is_stale now max_staleness_seconds
    if stale && ! include_stale then none
    else
      let vid := snapshot.venue_id
      let venue := venues_by_id vid
      let venue_name := match venue with
        | some v => v.name
        | none => s!"Venue {vid}"
      let trade_url := match venue with
        | some v => v.get_trade_url base_symbol
        | none => none
      let mid_price := snapshot.mid
      let spread := decSub snapshot.ask snapshot.bid
      let spread_bps :=
        if 0 < mid_price then decMul (decDiv spread mid_price) 10000 else 0
      some
        { venue_name := venue_name
          venue_id := vid
          base_token_symbol := base_symbol
          quote_token_symbol := quote_symbol
          bid := snapshot.bid
          ask := snapshot.ask
          mid_price := mid_price
          spread := spread
          spread_bps := qRound (1/100) spread_bps
          volume_24h := snapshot.volume_24h
          timestamp := snapshot.fetched_at
          is_stale := stale
          trade_url := trade_url }
  sortByBidDesc dtos

/-- `_build_best_price_dto`: venue names and prices for the best bid/ask,
and the effective spread as percentage and basis points
(`bps = pct * 100`). -/
def build_best_price_dto (venues_by_id : ℤ → Option Venue)
    (base_symbol quote_symbol : String) (best_prices : BestPrices) :
    BestPriceDTO :=
  let bidInfo := match best_prices.best_bid with
    | none => (none, none, none)
    | some b =>
        let vid := b.venue_id
        let nm := match venues_by_id vid with
          | some v => v.name
          | none => s!"Venue {vid}"
        (some nm, some vid, some b.bid)
  let askInfo := match best_prices.best_ask with
    | none => (none, none, none)
    | some a =>
        let vid := a.venue_id
        let nm := match venues_by_id vid with
          | some v => v.name
          | none => s!"Venue {vid}"
        (some nm, some vid, some a.ask)
  let spreadInfo : Option ℚ × Option ℚ := match best_prices.effective_spread with
    | none => (none, none)
    | some sp => (some sp.percentage, some (decMul sp.percentage 100))
  { base_token_symbol := base_symbol
    quote_token_symbol := quote_symbol
    best_bid_venue := bidInfo.1
    best_bid_venue_id := bidInfo.2.1
    best_bid_price := bidInfo.2.2
    best_ask_venue := askInfo.1
    best_ask_venue_id := askInfo.2.1
    best_ask_price := askInfo.2.2
    effective_spread_pct := spreadInfo.1
    effective_spread_bps := spreadInfo.2 }

/-- The rightmost maximum of the mapped values, Python's
`max(s.fetched_at for s in snapshots)` up to value (ties carry equal
values, so first/last is indistinguishable on the value). -/
def maxFetchedAt (x : PriceSnapshot) (rest : List PriceSnapshot) : ℚ :=
  rest.foldl (fun m s => max m s.fetched_at) x.fetched_at

/-- `GetAggregatedPricesUseCase.execute` after its repository reads: the
resolved token, the latest snapshot per venue, and the venue-metadata
lookup are parameters (the repositories are external collaborators).
`calc_staleness` is the staleness threshold of the injected
`PriceCalculator`; `max_staleness_seconds` is the use case's own; the
default wiring (`PriceCalculator(max_staleness_seconds)`) makes them
equal. -/
def executeCore (calc_staleness max_staleness_seconds now : ℚ)
    (token : Token) (venues_by_id : ℤ → Option Venue)
    (base_symbol quote_symbol : String) (include_stale : Bool)
    (snapshots : List PriceSnapshot) :
    Except UseCaseError AggregatedPricesDTO :=
  if token.id = none then .error .tokenNotFound
  else match snapshots with
  | [] => .error .noPriceData
  | x :: rest =>
      match PriceCalculator.calculate_best_prices calc_staleness now (x :: rest) with
      | none => .error .valueError
      | some best_prices =>
          let venue_dtos := build_venue_dtos max_staleness_seconds now venues_by_id
            base_symbol quote_symbol include_stale (x :: rest)
          let best_price_dto := build_best_price_dto venues_by_id base_symbol
            quote_symbol best_prices
          let last_updated := maxFetchedAt x rest
          let num_fresh := ((x :: rest).filter fun s =>
            ! s.is_stale now max_staleness_seconds).length
          .ok
            { base_token_symbol := base_symbol
              base_token_name := token.name
              quote_token_symbol := quote_symbol
              best_prices := best_price_dto
              venues := venue_dtos
              num_venues := venue_dtos.length
              num_fresh_venues := num_fresh
              last_updated := last_updated }

end GetAggregatedPricesUseCase

/-! ### Properties of half-even rounding -/

theorem rne_intCast (n : ℤ) : rne (n : ℚ) = n := by
  simp [rne, Int.floor_intCast]

theorem abs_rne_sub_le (x : ℚ) : |(rne x : ℚ) - x| ≤ 1/2 := by
  unfold rne
  have h0 : (⌊x⌋ : ℚ) ≤ x := Int.floor_le x
  have h1 : x < ⌊x⌋ + 1 := Int.lt_floor_add_one x
  by_cases hlt : x - ⌊x⌋ < 1/2
  · rw [if_pos hlt]
    exact abs_le.mpr ⟨by linarith, by linarith⟩
  · rw [if_neg hlt]
    by_cases hgt : 1/2 < x - ⌊x⌋
    · rw [if_pos hgt]
      push_cast
      exact abs_le.mpr ⟨by linarith, by linarith⟩
    · rw [if_neg hgt]
      by_cases hev : ⌊x⌋ % 2 = 0
      · rw [if_pos hev]
        exact abs_le.mpr ⟨by linarith, by linarith⟩
      · rw [if_neg hev]
        push_cast
        exact abs_le.mpr ⟨by linarith, by linarith⟩

theorem rne_of_lt_of_lt (x : ℚ) (n : ℤ) (hlo : (n:ℚ) - 1/2 < x)
    (hhi : x < (n:ℚ) + 1/2) : rne x = n := by
  unfold rne
  by_cases hx : (n:ℚ) ≤ x
  · have hf : ⌊x⌋ = n := Int.floor_eq_iff.mpr ⟨hx, by push_cast; linarith⟩
    have hr : x - (⌊x⌋:ℚ) < 1/2 := by rw [hf]; linarith
    rw [if_pos hr, hf]
  · push_neg at hx
    have hf : ⌊x⌋ = n - 1 := by
      apply Int.floor_eq_iff.mpr
      constructor
      · push_cast; linarith
      · push_cast; linarith
    have hr : 1/2 < x - (⌊x⌋:ℚ) := by rw [hf]; push_cast; linarith
    rw [if_neg (by linarith), if_pos hr, hf]
    omega

theorem rne_zero : rne 0 = 0 := by
  simpa using rne_intCast 0

theorem qRound_zero (u : ℚ) : qRound u 0 = 0 := by
  simp [qRound, rne_zero]

/-! ### Digit counting -/

theorem digAux_zero (fuel : ℕ) : digAux fuel 0 = 0 := by
  cases fuel <;> rfl

theorem digAux_succ (fuel m : ℕ) :
    digAux (fuel+1) (m+1) = if m+1 < 10 then 1 else digAux fuel ((m+1)/10) + 1 := rfl

theorem digAux_congr : ∀ (n f₁ f₂ : ℕ), n ≤ f₁ → n ≤ f₂ →
    digAux f₁ n = digAux f₂ n := by
  intro n
  induction n using Nat.strong_induction_on with
  | _ n ih =>
    intro f₁ f₂ h₁ h₂
    rcases n with _ | m
    · rw [digAux_zero, digAux_zero]
    · rcases f₁ with _ | g₁
      · omega
      rcases f₂ with _ | g₂
      · omega
      rw [digAux_succ, digAux_succ]
      by_cases hlt : m+1 < 10
      · rw [if_pos hlt, if_pos hlt]
      · rw [if_neg hlt, if_neg hlt]
        have hq : (m+1)/10 < m+1 := Nat.div_lt_self (by omega) (by norm_num)
        rw [ih ((m+1)/10) hq g₁ g₂ (by omega) (by omega)]

theorem digits10_eq (m : ℕ) :
    digits10 (m+1) = if m+1 < 10 then 1 else digits10 ((m+1)/10) + 1 := by
  unfold digits10
  rw [digAux_succ]
  by_cases hlt : m+1 < 10
  · rw [if_pos hlt, if_pos hlt]
  · rw [if_neg hlt, if_neg hlt]
    congr 1
    apply digAux_congr
    · have : (m+1)/10 < m+1 := Nat.div_lt_self (by omega) (by norm_num)
      omega
    · exact le_refl _

theorem digits10_spec : ∀ n : ℕ, 1 ≤ n →
    1 ≤ digits10 n ∧ 10^(digits10 n - 1) ≤ n ∧ n < 10^(digits10 n) := by
  intro n
  induction n using Nat.strong_induction_on with
  | _ n ih =>
    intro hn
    rcases n with _ | m
    · omega
    by_cases hlt : m+1 < 10
    · rw [digits10_eq, if_pos hlt]
      refine ⟨le_refl 1, by simpa using hn, by simpa using hlt⟩
    · have h10 : 10 ≤ m+1 := by omega
      have hqpos : 1 ≤ (m+1)/10 := (Nat.one_le_div_iff (by norm_num)).mpr h10
      have hqlt : (m+1)/10 < m+1 := Nat.div_lt_self (by omega) (by norm_num)
      obtain ⟨d1, dl, du⟩ := ih _ hqlt hqpos
      rw [digits10_eq, if_neg hlt]
      set d := digits10 ((m+1)/10) with hdd
      have hpow : 10^d = 10 * 10^(d-1) := by
        conv_lhs => rw [show d = (d-1)+1 by omega]
        rw [pow_succ]
        ring
      have hdm := Nat.div_add_mod (m+1) 10
      have hmod : (m+1) % 10 < 10 := Nat.mod_lt _ (by norm_num)
      refine ⟨by omega, ?_, ?_⟩
      · have he : d + 1 - 1 = d := by omega
        rw [he, hpow]
        have h2 : 10 * 10^(d-1) ≤ 10 * ((m+1)/10) := Nat.mul_le_mul_left _ dl
        omega
      · have h3 : (m+1)/10 + 1 ≤ 10^d := by omega
        have h4 : 10 * ((m+1)/10 + 1) ≤ 10 * 10^d := Nat.mul_le_mul_left _ h3
        have h5 : 10^(d+1) = 10 * 10^d := by rw [pow_succ]; ring
        omega

/-! ### Properties of the adjusted decimal exponent -/

theorem zpowNatSub (a b : ℕ) : (10:ℚ) ^ ((a:ℤ) - (b:ℤ)) = 10^a / 10^b := by
  rw [zpow_sub₀ (by norm_num : (10:ℚ) ≠ 0), zpow_natCast, zpow_natCast]

theorem abs_rat_eq (x : ℚ) : |x| = (x.num.natAbs : ℚ) / (x.den : ℚ) := by
  have h : (x.num : ℚ) / (x.den : ℚ) = x := Rat.num_div_den x
  have hdpos : (0:ℚ) < (x.den : ℚ) := by
    exact_mod_cast Nat.pos_of_ne_zero x.den_nz
  conv_lhs => rw [← h]
  rw [abs_div, abs_of_pos hdpos, Int.cast_natAbs, Int.cast_abs]

theorem decade_def (x : ℚ) :
    decade x = if (10:ℚ) ^ ((digits10 x.num.natAbs : ℤ) - (digits10 x.den : ℤ)) ≤ |x|
      then (digits10 x.num.natAbs : ℤ) - (digits10 x.den : ℤ)
      else (digits10 x.num.natAbs : ℤ) - (digits10 x.den : ℤ) - 1 := rfl

theorem decade_spec (x : ℚ) (hx : x ≠ 0) :
    (10:ℚ)^(decade x) ≤ |x| ∧ |x| < (10:ℚ)^(decade x + 1) := by
  have hn : 1 ≤ x.num.natAbs := Int.natAbs_pos.mpr (Rat.num_ne_zero.mpr hx)
  have hd : 1 ≤ x.den := Nat.pos_of_ne_zero x.den_nz
  obtain ⟨hA1, hAl, hAu⟩ := digits10_spec x.num.natAbs hn
  obtain ⟨hB1, hBl, hBu⟩ := digits10_spec x.den hd
  have hAlq : (10:ℚ)^(digits10 x.num.natAbs - 1) ≤ (x.num.natAbs:ℚ) := by
    exact_mod_cast hAl
  have hAuq : (x.num.natAbs:ℚ) < (10:ℚ)^(digits10 x.num.natAbs) := by
    exact_mod_cast hAu
  have hBlq : (10:ℚ)^(digits10 x.den - 1) ≤ (x.den:ℚ) := by exact_mod_cast hBl
  have hBuq : (x.den:ℚ) < (10:ℚ)^(digits10 x.den) := by exact_mod_cast hBu
  have hnq : (0:ℚ) < (x.num.natAbs:ℚ) := by exact_mod_cast hn
  have hdq : (0:ℚ) < (x.den:ℚ) := by exact_mod_cast hd
  have habs := abs_rat_eq x
  have hlow : (10:ℚ)^((digits10 x.num.natAbs : ℤ) - (digits10 x.den : ℤ) - 1) < |x| := by
    have hcast : (digits10 x.num.natAbs : ℤ) - (digits10 x.den : ℤ) - 1
        = ((digits10 x.num.natAbs - 1 : ℕ) : ℤ) - ((digits10 x.den : ℕ) : ℤ) := by
      omega
    rw [hcast, zpowNatSub, habs]
    rw [div_lt_div_iff₀ (by positivity) hdq]
    exact mul_lt_mul' hAlq hBuq hdq.le hnq
  have hup : |x| < (10:ℚ)^((digits10 x.num.natAbs : ℤ) - (digits10 x.den : ℤ) + 1) := by
    have hcast : (digits10 x.num.natAbs : ℤ) - (digits10 x.den : ℤ) + 1
        = ((digits10 x.num.natAbs : ℕ) : ℤ) - ((digits10 x.den - 1 : ℕ) : ℤ) := by
      omega
    rw [hcast, zpowNatSub, habs]
    rw [div_lt_div_iff₀ hdq (by positivity)]
    exact mul_lt_mul hAuq hBlq (by positivity) (by positivity)
  rw [decade_def]
  by_cases hc : (10:ℚ) ^ ((digits10 x.num.natAbs : ℤ) - (digits10 x.den : ℤ)) ≤ |x|
  · rw [if_pos hc]
    exact ⟨hc, hup⟩
  · rw [if_neg hc]
    refine ⟨le_of_lt hlow, ?_⟩
    have he : (digits10 x.num.natAbs : ℤ) - (digits10 x.den : ℤ) - 1 + 1
        = (digits10 x.num.natAbs : ℤ) - (digits10 x.den : ℤ) := by ring
    rw [he]
    exact lt_of_not_le hc

theorem decade_unique (x : ℚ) (e : ℤ) (h1 : (10:ℚ)^e ≤ |x|)
    (h2 : |x| < (10:ℚ)^(e+1)) : decade x = e := by
  have hx : x ≠ 0 := by
    intro h
    rw [h, abs_zero] at h1
    have := zpow_pos (by norm_num : (0:ℚ) < 10) e
    linarith
  obtain ⟨l, u⟩ := decade_spec x hx
  have h3 : decade x < e + 1 := by
    by_contra hcon
    push_neg at hcon
    have := zpow_le_zpow_right₀ (by norm_num : (1:ℚ) ≤ 10) hcon
    linarith
  have h4 : e < decade x + 1 := by
    by_contra hcon
    push_neg at hcon
    have := zpow_le_zpow_right₀ (by norm_num : (1:ℚ) ≤ 10) hcon
    linarith
  omega

/-! ### Properties of the 28-digit context rounding -/

theorem round28_zero : round28 0 = 0 := by
  simp [round28]

theorem round28_eq_self (c k : ℤ) (hc : c ≠ 0) (hck : |c| < 10^28) :
    round28 ((c:ℚ) * (10:ℚ)^k) = (c:ℚ) * (10:ℚ)^k := by
  have hten : (0:ℚ) < 10 := by norm_num
  have hpk : (0:ℚ) < (10:ℚ)^k := zpow_pos hten k
  have hcq : ((c:ℚ)) ≠ 0 := Int.cast_ne_zero.mpr hc
  have hx : (c:ℚ) * (10:ℚ)^k ≠ 0 := mul_ne_zero hcq (ne_of_gt hpk)
  obtain ⟨l, u⟩ := decade_spec ((c:ℚ) * (10:ℚ)^k) hx
  have habs : |(c:ℚ) * (10:ℚ)^k| = |(c:ℚ)| * (10:ℚ)^k := by
    rw [abs_mul, abs_of_pos hpk]
  have hcabs : |(c:ℚ)| < (10:ℚ)^(28:ℕ) := by
    rw [← Int.cast_abs]
    exact_mod_cast hck
  have hup : |(c:ℚ) * (10:ℚ)^k| < (10:ℚ)^(k+28) := by
    rw [habs, zpow_add₀ (ne_of_gt hten)]
    have h28 : (10:ℚ)^(28:ℤ) = (10:ℚ)^(28:ℕ) := by
      rw [← zpow_natCast]
      norm_num
    rw [h28, mul_comm ((10:ℚ)^k)]
    exact mul_lt_mul_of_pos_right hcabs hpk
  have he : decade ((c:ℚ) * (10:ℚ)^k) ≤ k + 27 := by
    have h1 : (10:ℚ)^(decade ((c:ℚ) * (10:ℚ)^k)) < (10:ℚ)^(k+28) :=
      lt_of_le_of_lt l hup
    have h2 := (zpow_lt_zpow_iff_right₀ (by norm_num : (1:ℚ) < 10)).mp h1
    omega
  have hm : 0 ≤ k + 27 - decade ((c:ℚ) * (10:ℚ)^k) := by omega
  have hdiv : ((c:ℚ) * (10:ℚ)^k) / (10:ℚ)^(decade ((c:ℚ) * (10:ℚ)^k) - 27)
      = ((c * 10^((k + 27 - decade ((c:ℚ) * (10:ℚ)^k)).toNat) : ℤ) : ℚ) := by
    push_cast
    rw [← zpow_natCast (10:ℚ) ((k + 27 - decade ((c:ℚ) * (10:ℚ)^k)).toNat),
      Int.toNat_of_nonneg hm]
    rw [div_eq_iff (zpow_ne_zero _ (by norm_num : (10:ℚ) ≠ 0))]
    rw [mul_assoc, ← zpow_add₀ (by norm_num : (10:ℚ) ≠ 0)]
    congr 1
    ring_nf
  unfold round28 qRound
  rw [if_neg hx, hdiv, rne_intCast]
  push_cast
  rw [← zpow_natCast (10:ℚ) ((k + 27 - decade ((c:ℚ) * (10:ℚ)^k)).toNat),
    Int.toNat_of_nonneg hm]
  rw [← mul_assoc, mul_comm ((10:ℚ)^(decade ((c:ℚ) * (10:ℚ)^k) - 27)) ((c:ℚ)),
    mul_assoc, ← zpow_add₀ (by norm_num : (10:ℚ) ≠ 0)]
  congr 1
  ring_nf

theorem abs_round28_sub_le (x : ℚ) (hx : x ≠ 0) :
    |round28 x - x| ≤ 1/2 * (10:ℚ)^(decade x - 27) := by
  unfold round28 qRound
  rw [if_neg hx]
  have hupos : (0:ℚ) < (10:ℚ)^(decade x - 27) := zpow_pos (by norm_num) _
  have h := abs_rne_sub_le (x / (10:ℚ)^(decade x - 27))
  have heq : (10:ℚ)^(decade x - 27) * (rne (x / (10:ℚ)^(decade x - 27)) : ℚ) - x
      = (10:ℚ)^(decade x - 27) *
        ((rne (x / (10:ℚ)^(decade x - 27)) : ℚ) - x / (10:ℚ)^(decade x - 27)) := by
    field_simp
    ring
  rw [heq, abs_mul, abs_of_pos hupos]
  calc (10:ℚ)^(decade x - 27) *
      |(rne (x / (10:ℚ)^(decade x - 27)) : ℚ) - x / (10:ℚ)^(decade x - 27)|
      ≤ (10:ℚ)^(decade x - 27) * (1/2) := by
        exact mul_le_mul_of_nonneg_left h (le_of_lt hupos)
    _ = 1/2 * (10:ℚ)^(decade x - 27) := by ring

theorem round28_ne_zero (x : ℚ) (hx : x ≠ 0) : round28 x ≠ 0 := by
  unfold round28 qRound
  rw [if_neg hx]
  have hupos : (0:ℚ) < (10:ℚ)^(decade x - 27) := zpow_pos (by norm_num) _
  have hle : (10:ℚ)^(decade x - 27) ≤ (10:ℚ)^(decade x) :=
    zpow_le_zpow_right₀ (by norm_num) (by omega)
  have hz : 1 ≤ |x / (10:ℚ)^(decade x - 27)| := by
    rw [abs_div, abs_of_pos hupos, le_div_iff₀ hupos, one_mul]
    exact le_trans hle (decade_spec x hx).1
  have h := abs_rne_sub_le (x / (10:ℚ)^(decade x - 27))
  have hne : (rne (x / (10:ℚ)^(decade x - 27)) : ℚ) ≠ 0 := by
    intro h0
    rw [h0, zero_sub, abs_neg] at h
    linarith
  exact mul_ne_zero (ne_of_gt hupos) hne

theorem round28_repr (x : ℚ) (hx : x ≠ 0) :
    ∃ c k : ℤ, round28 x = (c:ℚ) * (10:ℚ)^k ∧ c ≠ 0 ∧ |c| < 10^28 := by
  obtain ⟨l, u⟩ := decade_spec x hx
  have hupos : (0:ℚ) < (10:ℚ)^(decade x - 27) := zpow_pos (by norm_num) _
  have habs : |x / (10:ℚ)^(decade x - 27)| < (10:ℚ)^(28:ℕ) := by
    rw [abs_div, abs_of_pos hupos, div_lt_iff₀ hupos]
    calc |x| < (10:ℚ)^(decade x + 1) := u
      _ = (10:ℚ)^(28:ℕ) * (10:ℚ)^(decade x - 27) := by
        rw [← zpow_natCast (10:ℚ) 28, ← zpow_add₀ (by norm_num : (10:ℚ) ≠ 0)]
        congr 1
        omega
  have h := abs_rne_sub_le (x / (10:ℚ)^(decade x - 27))
  have hbound : |(rne (x / (10:ℚ)^(decade x - 27)) : ℚ)| < (10:ℚ)^(28:ℕ) + 1/2 := by
    have := abs_sub_abs_le_abs_sub (rne (x / (10:ℚ)^(decade x - 27)) : ℚ)
      (x / (10:ℚ)^(decade x - 27))
    linarith
  have hile : |rne (x / (10:ℚ)^(decade x - 27))| ≤ 10^28 := by
    by_contra hcon
    push_neg at hcon
    have : (10:ℚ)^(28:ℕ) + 1 ≤ |(rne (x / (10:ℚ)^(decade x - 27)) : ℚ)| := by
      rw [← Int.cast_abs]
      exact_mod_cast hcon
    linarith
  have hne : rne (x / (10:ℚ)^(decade x - 27)) ≠ 0 := by
    intro h0
    have := round28_ne_zero x hx
    apply this
    unfold round28 qRound
    rw [if_neg hx, h0]
    simp
  have hr28 : round28 x
      = (rne (x / (10:ℚ)^(decade x - 27)) : ℚ) * (10:ℚ)^(decade x - 27) := by
    unfold round28 qRound
    rw [if_neg hx]
    exact mul_comm _ _
  have h28 : ((10^28 : ℤ) : ℚ) = (10:ℚ)^(28:ℤ) := by
    rw [show (28:ℤ) = ((28:ℕ):ℤ) by norm_num, zpow_natCast]
    push_cast
    ring
  rcases lt_or_eq_of_le hile with hlt | heq
  · exact ⟨rne (x / (10:ℚ)^(decade x - 27)), decade x - 27, hr28, hne, hlt⟩
  · rcases abs_eq (by positivity : (0:ℤ) ≤ 10^28) |>.mp heq with hpos | hneg
    · refine ⟨1, decade x - 27 + 28, ?_, one_ne_zero, by norm_num⟩
      rw [hr28, hpos, zpow_add₀ (by norm_num : (10:ℚ) ≠ 0), h28]
      ring
    · refine ⟨-1, decade x - 27 + 28, ?_, by norm_num, by norm_num⟩
      rw [hr28, hneg, zpow_add₀ (by norm_num : (10:ℚ) ≠ 0), Int.cast_neg, h28]
      ring

theorem zpow_neg4 : (10:ℚ)^(-4:ℤ) = 1/10000 := by
  rw [zpow_neg, show (4:ℤ) = ((4:ℕ):ℤ) from rfl, zpow_natCast]
  norm_num

theorem zpow_neg5 : (10:ℚ)^(-5:ℤ) = 1/100000 := by
  rw [zpow_neg, show (5:ℤ) = ((5:ℕ):ℤ) from rfl, zpow_natCast]
  norm_num

theorem zpow_neg7 : (10:ℚ)^(-7:ℤ) = 1/10000000 := by
  rw [zpow_neg, show (7:ℤ) = ((7:ℕ):ℤ) from rfl, zpow_natCast]
  norm_num

theorem zpow_neg27 : (10:ℚ)^(-27:ℤ) = 1/1000000000000000000000000000 := by
  rw [zpow_neg, show (27:ℤ) = ((27:ℕ):ℤ) from rfl, zpow_natCast]
  norm_num

theorem decMul_hundred (x : ℚ) : decMul (round28 x) 100 = round28 x * 100 := by
  by_cases hx : x = 0
  · subst hx
    rw [round28_zero]
    unfold decMul
    rw [zero_mul, round28_zero]
  · rcases round28_repr x hx with ⟨c, k, hck, hc0, hclt⟩
    unfold decMul
    rw [hck]
    have h2 : (c:ℚ) * (10:ℚ)^k * 100 = (c:ℚ) * (10:ℚ)^(k+2) := by
      rw [zpow_add₀ (by norm_num : (10:ℚ) ≠ 0)]
      have h100 : (10:ℚ)^(2:ℤ) = 100 := by
        rw [show (2:ℤ) = ((2:ℕ):ℤ) from rfl, zpow_natCast]
        norm_num
      rw [h100]
      ring
    rw [h2, round28_eq_self c (k+2) hc0 hclt, ← h2]

theorem pow20_eq : (10:ℤ)^20 = 100000000000000000000 := by norm_num

theorem pow28_eq : (10:ℤ)^28 = 10000000000000000000000000000 := by norm_num

theorem Spread.calculate_pos (bid ask : ℚ) (hb : 0 < bid) (ha : 0 < ask) :
    Spread.calculate bid ask = some ⟨quantize4 (decMul (decDiv (decSub ask bid)
      (decDiv (decAdd bid ask) 2)) 100)⟩ := by
  unfold Spread.calculate
  rw [if_neg (by push_neg; exact ⟨hb, ha⟩)]

set_option maxHeartbeats 2000000 in
/-- For 4-decimal-place prices below 10^16 (here `bid = B/10^4`,
`ask = A/10^4` with integers `A, B < 10^20`), the Decimal pipeline of
`Spread.calculate` agrees with the exact rational formula
`((ask - bid) / mid) * 100` quantized to 4 places half-even: every
intermediate context rounding is either exact or too small to move the
final quantization. -/
theorem spread_calc_exact_of_bounded (A B : ℤ) (hA : 0 < A) (hB : 0 < B)
    (hA20 : A < 10^20) (hB20 : B < 10^20) :
    Spread.calculate ((B:ℚ)/10000) ((A:ℚ)/10000)
      = some ⟨qRound (1/10000)
          ((((A:ℚ)/10000 - (B:ℚ)/10000) / (((B:ℚ)/10000 + (A:ℚ)/10000) / 2)) * 100)⟩ := by
  rw [pow20_eq] at hA20 hB20
  have hAq : (0:ℚ) < (A:ℚ) := by exact_mod_cast hA
  have hBq : (0:ℚ) < (B:ℚ) := by exact_mod_cast hB
  have hAq20 : (A:ℚ) < 100000000000000000000 := by exact_mod_cast hA20
  have hBq20 : (B:ℚ) < 100000000000000000000 := by exact_mod_cast hB20
  have hbid : (0:ℚ) < (B:ℚ)/10000 := by positivity
  have hask : (0:ℚ) < (A:ℚ)/10000 := by positivity
  have hABpos : (0:ℚ) < (A:ℚ)+B := by linarith
  rw [Spread.calculate_pos _ _ hbid hask]
  refine congrArg some (congrArg Spread.mk ?_)
  have hadd : decAdd ((B:ℚ)/10000) ((A:ℚ)/10000) = ((A+B:ℤ):ℚ) * (10:ℚ)^(-4:ℤ) := by
    unfold decAdd
    have h1 : (B:ℚ)/10000 + (A:ℚ)/10000 = ((A+B:ℤ):ℚ) * (10:ℚ)^(-4:ℤ) := by
      rw [zpow_neg4]
      push_cast
      ring
    rw [h1]
    exact round28_eq_self (A+B) (-4) (by omega) (by rw [abs_lt, pow28_eq]; omega)
  have hmid : decDiv (decAdd ((B:ℚ)/10000) ((A:ℚ)/10000)) 2
      = ((5*(A+B):ℤ):ℚ) * (10:ℚ)^(-5:ℤ) := by
    rw [hadd]
    unfold decDiv
    have h1 : ((A+B:ℤ):ℚ) * (10:ℚ)^(-4:ℤ) / 2 = ((5*(A+B):ℤ):ℚ) * (10:ℚ)^(-5:ℤ) := by
      rw [zpow_neg4, zpow_neg5]
      push_cast
      ring
    rw [h1]
    exact round28_eq_self (5*(A+B)) (-5) (by omega) (by rw [abs_lt, pow28_eq]; omega)
  by_cases hAB : A = B
  · subst hAB
    have hzero : decSub ((A:ℚ)/10000) ((A:ℚ)/10000) = 0 := by
      unfold decSub
      rw [sub_self, round28_zero]
    rw [hzero]
    have hdz : decDiv 0 (decDiv (decAdd ((A:ℚ)/10000) ((A:ℚ)/10000)) 2) = 0 := by
      unfold decDiv
      rw [zero_div, round28_zero]
    rw [hdz]
    have hmz : decMul 0 100 = 0 := by
      unfold decMul
      rw [zero_mul, round28_zero]
    rw [hmz, sub_self, zero_div, zero_mul]
    rfl
  · have hd : decSub ((A:ℚ)/10000) ((B:ℚ)/10000) = ((A-B:ℤ):ℚ) * (10:ℚ)^(-4:ℤ) := by
      unfold decSub
      have h1 : (A:ℚ)/10000 - (B:ℚ)/10000 = ((A-B:ℤ):ℚ) * (10:ℚ)^(-4:ℤ) := by
        rw [zpow_neg4]
        push_cast
        ring
      rw [h1]
      exact round28_eq_self (A-B) (-4) (by omega) (by rw [abs_lt, pow28_eq]; omega)
    set r : ℚ := 2*((A:ℚ)-B)/((A:ℚ)+B) with hr_def
    have hABne : (A:ℚ)+B ≠ 0 := ne_of_gt hABpos
    have hABq : (A:ℚ) ≠ B := by
      intro hcon
      exact hAB (by exact_mod_cast hcon)
    have hr0 : r ≠ 0 := by
      rw [hr_def]
      intro hcon
      rcases div_eq_zero_iff.mp hcon with h | h
      · have : (A:ℚ) = B := by linarith
        exact hABq this
      · exact hABne h
    have hdivr : ((A-B:ℤ):ℚ) * (10:ℚ)^(-4:ℤ) / (((5*(A+B):ℤ):ℚ) * (10:ℚ)^(-5:ℤ)) = r := by
      rw [zpow_neg4, zpow_neg5, hr_def]
      push_cast
      field_simp
      ring
    have hq : decDiv (decSub ((A:ℚ)/10000) ((B:ℚ)/10000))
        (decDiv (decAdd ((B:ℚ)/10000) ((A:ℚ)/10000)) 2) = round28 r := by
      rw [hd, hmid]
      unfold decDiv
      rw [hdivr]
    have hP : (((A:ℚ)/10000 - (B:ℚ)/10000) / (((B:ℚ)/10000 + (A:ℚ)/10000)/2)) * 100
        = r * 100 := by
      rw [hr_def]
      field_simp
      ring
    rw [hq, hP, decMul_hundred]
    unfold quantize4
    set q : ℚ := round28 r with hq_def
    have hzq : (q*100)/(1/10000 : ℚ) = q * 1000000 := by
      field_simp
      ring
    have hzr : (r*100)/(1/10000 : ℚ) = r * 1000000 := by
      field_simp
      ring
    unfold qRound
    rw [hzq, hzr]
    suffices h : rne (q*1000000) = rne (r*1000000) by rw [h]
    have hrabs : |r| < 2 := by
      have h1 : |(A:ℚ)-B| < (A:ℚ)+B := by
        rw [abs_sub_lt_iff]
        constructor <;> linarith
      rw [hr_def, abs_div, abs_of_pos hABpos, div_lt_iff₀ hABpos, abs_mul]
      rw [show |(2:ℚ)| = 2 by norm_num]
      linarith
    by_cases hhalf : ∃ j : ℤ, r * 1000000 = (j:ℚ) + 1/2
    · obtain ⟨j, hj⟩ := hhalf
      have hjq : |(j:ℚ) + 1/2| < 2000000 := by
        rw [← hj, abs_mul, show |(1000000:ℚ)| = 1000000 by norm_num]
        linarith
      have hjq2 : |((5*(2*j+1):ℤ):ℚ)| < 20000000 := by
        push_cast
        have heq2 : 5*(2*(j:ℚ)+1) = 10*((j:ℚ) + 1/2) := by ring
        rw [heq2, abs_mul, show |(10:ℚ)| = 10 by norm_num]
        linarith
      have hjZ : |(5*(2*j+1) : ℤ)| < 20000000 := by
        have := hjq2
        rw [← Int.cast_abs] at this
        exact_mod_cast this
      have hrrepr : r = ((5*(2*j+1):ℤ):ℚ) * (10:ℚ)^(-7:ℤ) := by
        rw [zpow_neg7]
        push_cast
        linarith
      have hfix : q = r := by
        rw [hq_def]
        conv_lhs => rw [hrrepr]
        rw [round28_eq_self (5*(2*j+1)) (-7) (by omega)
          (by rw [abs_lt, pow28_eq]; rw [abs_lt] at hjZ; omega)]
        exact hrrepr.symm
      rw [hfix]
    · set z : ℚ := r * 1000000 with hz_def
      set n : ℤ := rne z with hn_def
      have hstep := abs_rne_sub_le z
      rw [← hn_def] at hstep
      have hb1 : (n:ℚ) - 1/2 ≤ z ∧ z ≤ (n:ℚ) + 1/2 := by
        rw [abs_le] at hstep
        constructor <;> linarith [hstep.1, hstep.2]
      have hne_lo : z ≠ (n:ℚ) - 1/2 := by
        intro hcon
        exact hhalf ⟨n-1, by push_cast; linarith⟩
      have hne_hi : z ≠ (n:ℚ) + 1/2 := by
        intro hcon
        exact hhalf ⟨n, by push_cast; linarith⟩
      have hlo : (n:ℚ) - 1/2 < z := lt_of_le_of_ne hb1.1 (Ne.symm hne_lo)
      have hhi : z < (n:ℚ) + 1/2 := lt_of_le_of_ne hb1.2 hne_hi
      have hgap : ∀ m : ℤ, z ≠ (m:ℚ) + 1/2 →
          1/(2*((A:ℚ)+B)) ≤ |z - ((m:ℚ) + 1/2)| := by
        intro m hm
        have hNq : z - ((m:ℚ) + 1/2)
            = ((4000000*(A-B) - (2*m+1)*(A+B) : ℤ):ℚ)/(2*((A:ℚ)+B)) := by
          rw [hz_def, hr_def]
          push_cast
          field_simp
          ring
        have hN0 : (4000000*(A-B) - (2*m+1)*(A+B) : ℤ) ≠ 0 := by
          intro h0
          apply hm
          have hq0 : ((4000000*(A-B) - (2*m+1)*(A+B) : ℤ):ℚ) = 0 := by exact_mod_cast h0
          rw [hq0] at hNq
          have hz0 : z - ((m:ℚ)+1/2) = 0 := by
            rw [hNq]
            simp
          linarith
        have h1N : (1:ℚ) ≤ |((4000000*(A-B) - (2*m+1)*(A+B) : ℤ):ℚ)| := by
          rw [← Int.cast_abs]
          exact_mod_cast Int.one_le_abs hN0
        rw [hNq, abs_div, abs_of_pos (by linarith : (0:ℚ) < 2*((A:ℚ)+B))]
        gcongr
      have herr : |q - r| ≤ (1/2) * (|r| * (1/1000000000000000000000000000)) := by
        have h1 := abs_round28_sub_le r hr0
        have h2 : (10:ℚ)^(decade r - 27) ≤ |r| * (1/1000000000000000000000000000) := by
          have hsplit : (10:ℚ)^(decade r - 27) = (10:ℚ)^(decade r) * (10:ℚ)^(-27:ℤ) := by
            rw [← zpow_add₀ (by norm_num : (10:ℚ) ≠ 0)]
            congr 1
          rw [hsplit, zpow_neg27]
          exact mul_le_mul_of_nonneg_right (decade_spec r hr0).1 (by norm_num)
        calc |q - r| ≤ 1/2 * (10:ℚ)^(decade r - 27) := by
              rw [hq_def]
              exact h1
          _ ≤ (1/2) * (|r| * (1/1000000000000000000000000000)) := by linarith
      have herr6 : |q*1000000 - z|
          ≤ 1000000 * ((1/2) * (|r| * (1/1000000000000000000000000000))) := by
        have heq2 : q*1000000 - z = (q - r)*1000000 := by
          rw [hz_def]
          ring
        rw [heq2, abs_mul, show |(1000000:ℚ)| = 1000000 by norm_num]
        linarith
      have habd : |(A:ℚ)-B| < 100000000000000000000 := by
        rw [abs_sub_lt_iff]
        constructor <;> linarith
      have hrabs_eq : |r| = 2*|(A:ℚ)-B|/((A:ℚ)+B) := by
        rw [hr_def, abs_div, abs_of_pos hABpos, abs_mul]
        norm_num
      have key : 1000000 * ((1/2) * (|r| * (1/1000000000000000000000000000)))
          < 1/(2*((A:ℚ)+B)) := by
        rw [hrabs_eq]
        have hform : 1000000 * ((1/2) * ((2*|(A:ℚ)-B|/((A:ℚ)+B))
              * (1/1000000000000000000000000000)))
            = (1000000*|(A:ℚ)-B|)/(((A:ℚ)+B)*1000000000000000000000000000) := by
          field_simp
        rw [hform, div_lt_div_iff₀ (by positivity) (by linarith)]
        nlinarith [mul_pos hABpos
          (show (0:ℚ) < 1000000000000000000000000000 - 2000000*|(A:ℚ)-B| by linarith)]
      have hfinal : |q*1000000 - z| < 1/(2*((A:ℚ)+B)) := lt_of_le_of_lt herr6 key
      have hcast : ((n-1:ℤ):ℚ) + 1/2 = (n:ℚ) - 1/2 := by
        push_cast
        ring
      have hglo : 1/(2*((A:ℚ)+B)) ≤ z - ((n:ℚ) - 1/2) := by
        have h := hgap (n-1) (by rw [hcast]; exact hne_lo)
        rw [hcast] at h
        rwa [abs_of_pos (by linarith : (0:ℚ) < z - ((n:ℚ)-1/2))] at h
      have hghi : 1/(2*((A:ℚ)+B)) ≤ ((n:ℚ) + 1/2) - z := by
        have h := hgap n hne_hi
        have habs2 : |z - ((n:ℚ)+1/2)| = ((n:ℚ)+1/2) - z := by
          rw [abs_of_neg (by linarith : z - ((n:ℚ)+1/2) < 0)]
          ring
        rw [habs2] at h
        exact h
      have hfin2 := abs_lt.mp hfinal
      have hq_lo : (n:ℚ) - 1/2 < q*1000000 := by linarith [hfin2.1]
      have hq_hi : q*1000000 < (n:ℚ) + 1/2 := by linarith [hfin2.2]
      rw [rne_of_lt_of_lt (q*1000000) n hq_lo hq_hi, hn_def]

theorem pow35q : (10:ℚ)^(35:ℤ) = 100000000000000000000000000000000000 := by
  rw [show (35:ℤ) = ((35:ℕ):ℤ) from rfl, zpow_natCast]
  norm_num

theorem rne_half : rne (1/2 : ℚ) = 0 := by
  unfold rne
  have hfl : ⌊(1/2 : ℚ)⌋ = 0 := by
    apply Int.floor_eq_iff.mpr
    norm_num
  rw [hfl]
  rw [if_neg (by norm_num), if_neg (by norm_num), if_pos (by norm_num)]

theorem decSub_bigtie :
    decSub (200000050000000000000000000000000001/2 : ℚ)
        (199999949999999999999999999999999999/2 : ℚ)
      = 50000000000000000000000000000 := by
  unfold decSub
  have hv : (200000050000000000000000000000000001/2 : ℚ)
      - 199999949999999999999999999999999999/2 = 50000000000000000000000000001 := by
    norm_num
  rw [hv]
  unfold round28
  rw [if_neg (by norm_num)]
  have hdec : decade (50000000000000000000000000001:ℚ) = 28 := by
    apply decade_unique
    · rw [abs_of_pos (by norm_num),
        show (28:ℤ) = ((28:ℕ):ℤ) from rfl, zpow_natCast]
      norm_num
    · rw [abs_of_pos (by norm_num),
        show (28:ℤ)+1 = ((29:ℕ):ℤ) by norm_num, zpow_natCast]
      norm_num
  rw [hdec]
  rw [show (28:ℤ) - 27 = 1 by norm_num]
  unfold qRound
  rw [zpow_one]
  have hrne : rne ((50000000000000000000000000001:ℚ)/10)
      = 5000000000000000000000000000 := by
    apply rne_of_lt_of_lt
    · push_cast
      norm_num
    · push_cast
      norm_num
  rw [hrne]
  norm_num

/-- The Decimal evaluation of the counterexample inputs: the context
rounding in `ask - bid` (29 significant digits rounded to 28) lands the
quantization on an exact tie that half-even resolves downward to 0. -/
theorem spread_calc_bigtie :
    Spread.calculate (199999949999999999999999999999999999/2 : ℚ)
        (200000050000000000000000000000000001/2 : ℚ) = some ⟨0⟩ := by
  rw [Spread.calculate_pos _ _ (by norm_num) (by norm_num)]
  refine congrArg some (congrArg Spread.mk ?_)
  have hadd : decAdd (199999949999999999999999999999999999/2 : ℚ)
      (200000050000000000000000000000000001/2 : ℚ)
      = ((2:ℤ):ℚ) * (10:ℚ)^(35:ℤ) := by
    unfold decAdd
    have h1 : (199999949999999999999999999999999999/2 : ℚ)
        + 200000050000000000000000000000000001/2 = ((2:ℤ):ℚ) * (10:ℚ)^(35:ℤ) := by
      rw [pow35q]
      norm_num
    rw [h1]
    exact round28_eq_self 2 35 (by norm_num) (by norm_num)
  have hmid : decDiv (decAdd (199999949999999999999999999999999999/2 : ℚ)
      (200000050000000000000000000000000001/2 : ℚ)) 2
      = ((1:ℤ):ℚ) * (10:ℚ)^(35:ℤ) := by
    rw [hadd]
    unfold decDiv
    have h1 : ((2:ℤ):ℚ) * (10:ℚ)^(35:ℤ) / 2 = ((1:ℤ):ℚ) * (10:ℚ)^(35:ℤ) := by
      push_cast
      ring
    rw [h1]
    exact round28_eq_self 1 35 (by norm_num) (by norm_num)
  rw [decSub_bigtie, hmid]
  have hdd : decDiv (50000000000000000000000000000:ℚ) (((1:ℤ):ℚ) * (10:ℚ)^(35:ℤ))
      = ((5:ℤ):ℚ) * (10:ℚ)^(-7:ℤ) := by
    unfold decDiv
    have h1 : (50000000000000000000000000000:ℚ) / (((1:ℤ):ℚ) * (10:ℚ)^(35:ℤ))
        = ((5:ℤ):ℚ) * (10:ℚ)^(-7:ℤ) := by
      rw [pow35q, zpow_neg7]
      norm_num
    rw [h1]
    exact round28_eq_self 5 (-7) (by norm_num) (by norm_num)
  rw [hdd]
  have hmm : decMul (((5:ℤ):ℚ) * (10:ℚ)^(-7:ℤ)) 100 = ((5:ℤ):ℚ) * (10:ℚ)^(-5:ℤ) := by
    unfold decMul
    have h1 : ((5:ℤ):ℚ) * (10:ℚ)^(-7:ℤ) * 100 = ((5:ℤ):ℚ) * (10:ℚ)^(-5:ℤ) := by
      rw [zpow_neg7, zpow_neg5]
      norm_num
    rw [h1]
    exact round28_eq_self 5 (-5) (by norm_num) (by norm_num)
  rw [hmm]
  unfold quantize4 qRound
  have h1 : ((5:ℤ):ℚ) * (10:ℚ)^(-5:ℤ) / (1/10000) = 1/2 := by
    rw [zpow_neg5]
    norm_num
  rw [h1, rne_half]
  norm_num

/-- The exact rational formula at the same inputs quantizes to 0.0001,
not 0: the code and the exact formula disagree. -/
theorem spread_exact_bigtie :
    qRound (1/10000)
      (((200000050000000000000000000000000001/2 - 199999949999999999999999999999999999/2 : ℚ)
        / ((199999949999999999999999999999999999/2
            + 200000050000000000000000000000000001/2 : ℚ) / 2)) * 100) = 1/10000 := by
  have h1 : ((200000050000000000000000000000000001/2
        - 199999949999999999999999999999999999/2 : ℚ)
      / ((199999949999999999999999999999999999/2
          + 200000050000000000000000000000000001/2 : ℚ) / 2)) * 100
      = 50000000000000000000000000001/1000000000000000000000000000000000 := by
    norm_num
  rw [h1]
  unfold qRound
  have h2 : (50000000000000000000000000001:ℚ)/1000000000000000000000000000000000 / (1/10000)
      = 50000000000000000000000000001/100000000000000000000000000000 := by
    norm_num
  rw [h2]
  have h3 : rne ((50000000000000000000000000001:ℚ)/100000000000000000000000000000) = 1 := by
    apply rne_of_lt_of_lt
    · push_cast
      norm_num
    · push_cast
      norm_num
  rw [h3]
  norm_num

/-! ### Properties of Python max/min over a non-empty list -/

theorem pymaxBy_nil {α : Type} (f : α → ℚ) (x : α) : pymaxBy f x [] = x := rfl

theorem pymaxBy_cons {α : Type} (f : α → ℚ) (x y : α) (ys : List α) :
    pymaxBy f x (y :: ys) = pymaxBy f (if f x < f y then y else x) ys := rfl

theorem pyminBy_nil {α : Type} (f : α → ℚ) (x : α) : pyminBy f x [] = x := rfl

theorem pyminBy_cons {α : Type} (f : α → ℚ) (x y : α) (ys : List α) :
    pyminBy f x (y :: ys) = pyminBy f (if f y < f x then y else x) ys := rfl

theorem pymaxBy_mem {α : Type} (f : α → ℚ) (x : α) (l : List α) :
    pymaxBy f x l ∈ x :: l := by
  induction l generalizing x with
  | nil => simp [pymaxBy_nil]
  | cons y ys ih =>
    by_cases hc : f x < f y
    · rw [pymaxBy_cons, if_pos hc]
      rcases List.mem_cons.mp (ih y) with h1 | h1
      · rw [h1]
        simp
      · exact List.mem_cons_of_mem _ (List.mem_cons_of_mem _ h1)
    · rw [pymaxBy_cons, if_neg hc]
      rcases List.mem_cons.mp (ih x) with h1 | h1
      · rw [h1]
        simp
      · exact List.mem_cons_of_mem _ (List.mem_cons_of_mem _ h1)

theorem pyminBy_mem {α : Type} (f : α → ℚ) (x : α) (l : List α) :
    pyminBy f x l ∈ x :: l := by
  induction l generalizing x with
  | nil => simp [pyminBy_nil]
  | cons y ys ih =>
    by_cases hc : f y < f x
    · rw [pyminBy_cons, if_pos hc]
      rcases List.mem_cons.mp (ih y) with h1 | h1
      · rw [h1]
        simp
      · exact List.mem_cons_of_mem _ (List.mem_cons_of_mem _ h1)
    · rw [pyminBy_cons, if_neg hc]
      rcases List.mem_cons.mp (ih x) with h1 | h1
      · rw [h1]
        simp
      · exact List.mem_cons_of_mem _ (List.mem_cons_of_mem _ h1)

theorem le_pymaxBy {α : Type} (f : α → ℚ) (x : α) (l : List α) :
    ∀ a ∈ x :: l, f a ≤ f (pymaxBy f x l) := by
  induction l generalizing x with
  | nil =>
    intro a ha
    rw [pymaxBy_nil]
    rcases List.mem_cons.mp ha with rfl | h
    · exact le_refl _
    · simp at h
  | cons y ys ih =>
    intro a ha
    by_cases hc : f x < f y
    · rw [pymaxBy_cons, if_pos hc]
      rcases List.mem_cons.mp ha with rfl | ha1
      · have h := ih y y (List.mem_cons_self y ys)
        linarith
      · exact ih y a ha1
    · rw [pymaxBy_cons, if_neg hc]
      push_neg at hc
      rcases List.mem_cons.mp ha with rfl | ha1
      · exact ih a a (List.mem_cons_self a ys)
      · rcases List.mem_cons.mp ha1 with rfl | ha2
        · have h := ih x x (List.mem_cons_self x ys)
          linarith
        · exact ih x a (List.mem_cons_of_mem _ ha2)

theorem pyminBy_le {α : Type} (f : α → ℚ) (x : α) (l : List α) :
    ∀ a ∈ x :: l, f (pyminBy f x l) ≤ f a := by
  induction l generalizing x with
  | nil =>
    intro a ha
    rw [pyminBy_nil]
    rcases List.mem_cons.mp ha with rfl | h
    · exact le_refl _
    · simp at h
  | cons y ys ih =>
    intro a ha
    by_cases hc : f y < f x
    · rw [pyminBy_cons, if_pos hc]
      rcases List.mem_cons.mp ha with rfl | ha1
      · have h := ih y y (List.mem_cons_self y ys)
        linarith
      · exact ih y a ha1
    · rw [pyminBy_cons, if_neg hc]
      push_neg at hc
      rcases List.mem_cons.mp ha with rfl | ha1
      · exact ih a a (List.mem_cons_self a ys)
      · rcases List.mem_cons.mp ha1 with rfl | ha2
        · have h := ih x x (List.mem_cons_self x ys)
          linarith
        · exact ih x a (List.mem_cons_of_mem _ ha2)

theorem pymaxBy_first {α : Type} (f : α → ℚ) (x : α) (l : List α) :
    (x :: l).find? (fun s => decide (f (pymaxBy f x l) ≤ f s))
      = some (pymaxBy f x l) := by
  induction l generalizing x with
  | nil =>
    rw [pymaxBy_nil]
    exact List.find?_cons_of_pos _ (by simp)
  | cons y ys ih =>
    by_cases hc : f x < f y
    · rw [pymaxBy_cons, if_pos hc]
      have hy : f y ≤ f (pymaxBy f y ys) :=
        le_pymaxBy f y ys y (List.mem_cons_self y ys)
      rw [List.find?_cons_of_neg _ (by simp; linarith)]
      exact ih y
    · rw [pymaxBy_cons, if_neg hc]
      push_neg at hc
      have ihx := ih x
      by_cases hx : f (pymaxBy f x ys) ≤ f x
      · have hhead : (x :: ys).find? (fun s => decide (f (pymaxBy f x ys) ≤ f s))
            = some x := List.find?_cons_of_pos _ (by simp [hx])
        have hmx : x = pymaxBy f x ys := by
          have := hhead.symm.trans ihx
          exact Option.some.inj this
        rw [List.find?_cons_of_pos _ (by simp [hx])]
        exact congrArg some hmx
      · push_neg at hx
        have h1 : (x :: ys).find? (fun s => decide (f (pymaxBy f x ys) ≤ f s))
            = ys.find? (fun s => decide (f (pymaxBy f x ys) ≤ f s)) :=
          List.find?_cons_of_neg _ (by simp; linarith)
        have h2 := h1.symm.trans ihx
        rw [List.find?_cons_of_neg _ (by simp; linarith),
          List.find?_cons_of_neg _ (by simp; linarith)]
        exact h2

theorem pyminBy_first {α : Type} (f : α → ℚ) (x : α) (l : List α) :
    (x :: l).find? (fun s => decide (f s ≤ f (pyminBy f x l)))
      = some (pyminBy f x l) := by
  induction l generalizing x with
  | nil =>
    rw [pyminBy_nil]
    exact List.find?_cons_of_pos _ (by simp)
  | cons y ys ih =>
    by_cases hc : f y < f x
    · rw [pyminBy_cons, if_pos hc]
      have hy : f (pyminBy f y ys) ≤ f y :=
        pyminBy_le f y ys y (List.mem_cons_self y ys)
      rw [List.find?_cons_of_neg _ (by simp; linarith)]
      exact ih y
    · rw [pyminBy_cons, if_neg hc]
      push_neg at hc
      have ihx := ih x
      by_cases hx : f x ≤ f (pyminBy f x ys)
      · have hhead : (x :: ys).find? (fun s => decide (f s ≤ f (pyminBy f x ys)))
            = some x := List.find?_cons_of_pos _ (by simp [hx])
        have hmx : x = pyminBy f x ys := by
          have := hhead.symm.trans ihx
          exact Option.some.inj this
        rw [List.find?_cons_of_pos _ (by simp [hx])]
        exact congrArg some hmx
      · push_neg at hx
        have h1 : (x :: ys).find? (fun s => decide (f s ≤ f (pyminBy f x ys)))
            = ys.find? (fun s => decide (f s ≤ f (pyminBy f x ys))) :=
          List.find?_cons_of_neg _ (by simp; linarith)
        have h2 := h1.symm.trans ihx
        rw [List.find?_cons_of_neg _ (by simp; linarith),
          List.find?_cons_of_neg _ (by simp; linarith)]
        exact h2

theorem calculate_best_prices_eq_nil (maxStale now : ℚ)
    (snapshots : List PriceSnapshot)
    (h : snapshots.filter (fun s => ! s.is_stale now maxStale) = []) :
    PriceCalculator.calculate_best_prices maxStale now snapshots
      = some ⟨none, none, none, 0⟩ := by
  unfold PriceCalculator.calculate_best_prices
  rw [h]

theorem calculate_best_prices_eq_cons (maxStale now : ℚ)
    (snapshots : List PriceSnapshot) (x : PriceSnapshot)
    (rest : List PriceSnapshot)
    (h : snapshots.filter (fun s => ! s.is_stale now maxStale) = x :: rest) :
    PriceCalculator.calculate_best_prices maxStale now snapshots
      = match Spread.calculate (pymaxBy (fun s => s.bid) x rest).bid
          (pyminBy (fun s => s.ask) x rest).ask with
        | none => none
        | some sp => some ⟨some (pymaxBy (fun s => s.bid) x rest),
            some (pyminBy (fun s => s.ask) x rest), some sp, (x :: rest).length⟩ := by
  unfold PriceCalculator.calculate_best_prices
  rw [h]

theorem calculate_best_prices_isSome (maxStale now : ℚ)
    (snapshots : List PriceSnapshot)
    (hpos : ∀ s ∈ snapshots, 0 < s.bid ∧ 0 < s.ask) :
    ∃ bp : BestPrices,
      PriceCalculator.calculate_best_prices maxStale now snapshots = some bp
      ∧ bp.venues_count
          = (snapshots.filter (fun s => ! s.is_stale now maxStale)).length := by
  rcases hlist : snapshots.filter (fun s => ! s.is_stale now maxStale) with _ | ⟨x, rest⟩
  · exact ⟨⟨none, none, none, 0⟩, calculate_best_prices_eq_nil maxStale now snapshots hlist,
      by rw [hlist]; rfl⟩
  · have hbmem : pymaxBy (fun s => s.bid) x rest ∈ snapshots := by
      have h1 := pymaxBy_mem (fun s => s.bid) x rest
      rw [← hlist] at h1
      exact List.mem_of_mem_filter h1
    have hamem : pyminBy (fun s => s.ask) x rest ∈ snapshots := by
      have h1 := pyminBy_mem (fun s => s.ask) x rest
      rw [← hlist] at h1
      exact List.mem_of_mem_filter h1
    rw [calculate_best_prices_eq_cons maxStale now snapshots x rest hlist,
      Spread.calculate_pos _ _ (hpos _ hbmem).1 (hpos _ hamem).2]
    exact ⟨_, rfl, by rw [hlist]⟩

/-- C1: with the data-model invariant (positive bids and asks) and a
non-empty fresh subset, `calculate_best_prices` returns a snapshot with
the maximal bid, a snapshot with the minimal ask, an effective spread,
and `venues_count` equal to the fresh-set size. -/
theorem calculate_best_prices_best_bid_ask_spec (maxStale now : ℚ)
    (snapshots : List PriceSnapshot)
    (hpos : ∀ s ∈ snapshots, 0 < s.bid ∧ 0 < s.ask)
    (hne : snapshots.filter (fun s => ! s.is_stale now maxStale) ≠ []) :
    ∃ bp : BestPrices,
      PriceCalculator.calculate_best_prices maxStale now snapshots = some bp
      ∧ ∃ b a : PriceSnapshot, bp.best_bid = some b ∧ bp.best_ask = some a
        ∧ b ∈ snapshots.filter (fun s => ! s.is_stale now maxStale)
        ∧ a ∈ snapshots.filter (fun s => ! s.is_stale now maxStale)
        ∧ (∀ s ∈ snapshots.filter (fun s => ! s.is_stale now maxStale), s.bid ≤ b.bid)
        ∧ (∀ s ∈ snapshots.filter (fun s => ! s.is_stale now maxStale), a.ask ≤ s.ask)
        ∧ bp.effective_spread.isSome = true
        ∧ bp.venues_count
            = (snapshots.filter (fun s => ! s.is_stale now maxStale)).length := by
  rcases hlist : snapshots.filter (fun s => ! s.is_stale now maxStale) with _ | ⟨x, rest⟩
  · exact absurd hlist hne
  · have hbmem : pymaxBy (fun s => s.bid) x rest ∈ snapshots := by
      have h1 := pymaxBy_mem (fun s => s.bid) x rest
      rw [← hlist] at h1
      exact List.mem_of_mem_filter h1
    have hamem : pyminBy (fun s => s.ask) x rest ∈ snapshots := by
      have h1 := pyminBy_mem (fun s => s.ask) x rest
      rw [← hlist] at h1
      exact List.mem_of_mem_filter h1
    rw [calculate_best_prices_eq_cons maxStale now snapshots x rest hlist,
      Spread.calculate_pos _ _ (hpos _ hbmem).1 (hpos _ hamem).2]
    refine ⟨_, rfl, pymaxBy (fun s => s.bid) x rest, pyminBy (fun s => s.ask) x rest,
      rfl, rfl, ?_, ?_, ?_, ?_, rfl, by rw [hlist]⟩
    · rw [hlist]
      exact pymaxBy_mem (fun s => s.bid) x rest
    · rw [hlist]
      exact pyminBy_mem (fun s => s.ask) x rest
    · rw [hlist]
      exact le_pymaxBy (fun s => s.bid) x rest
    · rw [hlist]
      exact pyminBy_le (fun s => s.ask) x rest

/-- C7: when every snapshot is stale (in particular for the empty list),
the result is exactly `{best_bid: None, best_ask: None, effective_spread:
None, venues_count: 0}`. -/
theorem calculate_best_prices_all_stale (maxStale now : ℚ)
    (snapshots : List PriceSnapshot)
    (h : ∀ s ∈ snapshots, s.is_stale now maxStale = true) :
    PriceCalculator.calculate_best_prices maxStale now snapshots
      = some ⟨none, none, none, 0⟩ := by
  apply calculate_best_prices_eq_nil
  simp only [List.filter_eq_nil_iff]
  intro s hs
  simp [h s hs]

/-- C10: on bid (resp. ask) ties among fresh snapshots, the snapshot
returned as best bid (resp. best ask) is the first maximal-bid (resp.
first minimal-ask) element of the fresh list in input order, because
Python's `max`/`min` replace the running best only on a strict
improvement. -/
theorem calculate_best_prices_tie_break_first (maxStale now : ℚ)
    (snapshots : List PriceSnapshot)
    (hpos : ∀ s ∈ snapshots, 0 < s.bid ∧ 0 < s.ask)
    (hne : snapshots.filter (fun s => ! s.is_stale now maxStale) ≠ []) :
    ∃ bp : BestPrices, ∃ b a : PriceSnapshot,
      PriceCalculator.calculate_best_prices maxStale now snapshots = some bp
      ∧ bp.best_bid = some b ∧ bp.best_ask = some a
      ∧ (∀ s ∈ snapshots.filter (fun s => ! s.is_stale now maxStale), s.bid ≤ b.bid)
      ∧ (∀ s ∈ snapshots.filter (fun s => ! s.is_stale now maxStale), a.ask ≤ s.ask)
      ∧ (snapshots.filter (fun s => ! s.is_stale now maxStale)).find?
          (fun s => decide (b.bid ≤ s.bid)) = some b
      ∧ (snapshots.filter (fun s => ! s.is_stale now maxStale)).find?
          (fun s => decide (s.ask ≤ a.ask)) = some a := by
  rcases hlist : snapshots.filter (fun s => ! s.is_stale now maxStale) with _ | ⟨x, rest⟩
  · exact absurd hlist hne
  · have hbmem : pymaxBy (fun s => s.bid) x rest ∈ snapshots := by
      have h1 := pymaxBy_mem (fun s => s.bid) x rest
      rw [← hlist] at h1
      exact List.mem_of_mem_filter h1
    have hamem : pyminBy (fun s => s.ask) x rest ∈ snapshots := by
      have h1 := pyminBy_mem (fun s => s.ask) x rest
      rw [← hlist] at h1
      exact List.mem_of_mem_filter h1
    rw [calculate_best_prices_eq_cons maxStale now snapshots x rest hlist,
      Spread.calculate_pos _ _ (hpos _ hbmem).1 (hpos _ hamem).2]
    refine ⟨_, pymaxBy (fun s => s.bid) x rest, pyminBy (fun s => s.ask) x rest,
      rfl, rfl, rfl, ?_, ?_, ?_, ?_⟩
    · rw [hlist]
      exact le_pymaxBy (fun s => s.bid) x rest
    · rw [hlist]
      exact pyminBy_le (fun s => s.ask) x rest
    · rw [hlist]
      exact pymaxBy_first (fun s => s.bid) x rest
    · rw [hlist]
      exact pyminBy_first (fun s => s.ask) x rest

/-- C5: `Spread.calculate` fails (raises `ValueError`) exactly when
`bid <= 0 or ask <= 0`; a crossed market (`bid > ask > 0`) does not
raise, so negative spread percentages are representable. -/
theorem spread_calculate_error_iff (bid ask : ℚ) :
    (Spread.calculate bid ask = none ↔ bid ≤ 0 ∨ ask ≤ 0)
    ∧ (0 < ask → ask < bid → ∃ s : Spread, Spread.calculate bid ask = some s) := by
  constructor
  · unfold Spread.calculate
    by_cases h : bid ≤ 0 ∨ ask ≤ 0
    · rw [if_pos h]
      simp [h]
    · rw [if_neg h]
      simp [h]
  · intro h1 h2
    exact ⟨_, Spread.calculate_pos bid ask (lt_trans h1 h2) h1⟩

/-- C3: `should_trigger` is false whenever `can_trigger()` is false,
regardless of the spreads; `can_trigger()` holds iff the status is ACTIVE
and either no previous trigger exists or `now` is strictly past
`last_triggered_at + cooldown_hours`; at exactly the cooldown boundary the
alert still cannot trigger. -/
theorem should_trigger_gate_and_cooldown (now : ℚ) (alert : Alert)
    (cs : Spread) (ps : Option Spread) :
    (alert.can_trigger now = false →
      AlertPolicy.should_trigger now alert cs ps = false)
    ∧ (alert.can_trigger now = true ↔ alert.status = AlertStatus.active
        ∧ (alert.last_triggered_at = none
           ∨ ∃ t, alert.last_triggered_at = some t
              ∧ t + 3600 * alert.cooldown_hours < now))
    ∧ (∀ t, alert.status = AlertStatus.active →
        alert.last_triggered_at = some t →
        now = t + 3600 * alert.cooldown_hours →
        alert.can_trigger now = false) := by
  refine ⟨?_, ?_, ?_⟩
  · intro h
    simp [AlertPolicy.should_trigger, h]
  · unfold Alert.can_trigger
    by_cases hs : alert.status = AlertStatus.active
    · rw [if_neg (by simp [hs])]
      cases hlt : alert.last_triggered_at with
      | none => simp [hs]
      | some t => simp [hs]
    · rw [if_pos hs]
      simp [hs]
  · intro t hs hl heq
    unfold Alert.can_trigger
    rw [if_neg (by simp [hs]), hl]
    simp [heq]

/-- C2: for an eligible alert with a previous spread, `should_trigger` is
true iff the current spread is strictly below the threshold and the
previous spread was at or above it; in particular it does not re-fire when
both are below. -/
theorem should_trigger_crossing_iff (now : ℚ) (alert : Alert) (cs ps : Spread)
    (h : alert.can_trigger now = true) :
    (AlertPolicy.should_trigger now alert cs (some ps) = true
      ↔ cs.percentage < alert.threshold_pct
        ∧ alert.threshold_pct ≤ ps.percentage)
    ∧ (cs.percentage < alert.threshold_pct →
        ps.percentage < alert.threshold_pct →
        AlertPolicy.should_trigger now alert cs (some ps) = false) := by
  constructor
  · simp [AlertPolicy.should_trigger, Spread.is_below_threshold, h, not_lt]
  · intro h1 h2
    simp [AlertPolicy.should_trigger, Spread.is_below_threshold, h, h2]

/-- C6: for an eligible alert on its first evaluation (no previous
spread), `should_trigger` is exactly `current_spread.percentage <
threshold_pct`; equality to the threshold does not trigger. -/
theorem should_trigger_first_eval_iff (now : ℚ) (alert : Alert) (cs : Spread)
    (h : alert.can_trigger now = true) :
    (AlertPolicy.should_trigger now alert cs none = true
      ↔ cs.percentage < alert.threshold_pct)
    ∧ (cs.percentage = alert.threshold_pct →
        AlertPolicy.should_trigger now alert cs none = false) := by
  constructor
  · simp [AlertPolicy.should_trigger, Spread.is_below_threshold, h]
  · intro heq
    simp [AlertPolicy.should_trigger, Spread.is_below_threshold, h, heq]

/-- C9: the calculation services are pure: the explicit-state renderings
return their snapshot list and alert unchanged, and Alert state changes
only through `mark_triggered` (only `last_triggered_at`), `pause` and
`activate` (only `status`). -/
theorem pure_calculation_frame :
    (∀ (maxStale now : ℚ) (snapshots : List PriceSnapshot),
      (PriceCalculator.calculate_best_prices_st maxStale now snapshots).2 = snapshots)
    ∧ (∀ (now : ℚ) (alert : Alert) (cs : Spread) (ps : Option Spread),
      (AlertPolicy.should_trigger_st now alert cs ps).2 = alert)
    ∧ (∀ (now : ℚ) (a : Alert), (a.mark_triggered now).last_triggered_at = some now
        ∧ (a.mark_triggered now).status = a.status
        ∧ (a.mark_triggered now).threshold_pct = a.threshold_pct
        ∧ (a.mark_triggered now).cooldown_hours = a.cooldown_hours
        ∧ (a.mark_triggered now).id = a.id
        ∧ (a.mark_triggered now).email = a.email
        ∧ (a.mark_triggered now).token_id = a.token_id
        ∧ (a.mark_triggered now).alert_type = a.alert_type
        ∧ (a.mark_triggered now).created_at = a.created_at)
    ∧ (∀ a : Alert, a.pause.status = AlertStatus.paused
        ∧ a.pause.last_triggered_at = a.last_triggered_at
        ∧ a.pause.threshold_pct = a.threshold_pct
        ∧ a.pause.cooldown_hours = a.cooldown_hours
        ∧ a.pause.id = a.id ∧ a.pause.email = a.email
        ∧ a.pause.token_id = a.token_id ∧ a.pause.alert_type = a.alert_type
        ∧ a.pause.created_at = a.created_at)
    ∧ (∀ a : Alert, a.activate.status = AlertStatus.active
        ∧ a.activate.last_triggered_at = a.last_triggered_at
        ∧ a.activate.threshold_pct = a.threshold_pct
        ∧ a.activate.cooldown_hours = a.cooldown_hours
        ∧ a.activate.id = a.id ∧ a.activate.email = a.email
        ∧ a.activate.token_id = a.token_id ∧ a.activate.alert_type = a.alert_type
        ∧ a.activate.created_at = a.created_at) := by
  refine ⟨fun _ _ _ => rfl, fun _ _ _ _ => rfl, ?_, ?_, ?_⟩
  · intro now a
    exact ⟨rfl, rfl, rfl, rfl, rfl, rfl, rfl, rfl, rfl⟩
  · intro a
    exact ⟨rfl, rfl, rfl, rfl, rfl, rfl, rfl, rfl, rfl⟩
  · intro a
    exact ⟨rfl, rfl, rfl, rfl, rfl, rfl, rfl, rfl, rfl⟩

theorem foldl_max_init_le (l : List PriceSnapshot) (init : ℚ) :
    init ≤ l.foldl (fun m s => max m s.fetched_at) init := by
  induction l generalizing init with
  | nil => exact le_refl _
  | cons y ys ih =>
    exact le_trans (le_max_left init y.fetched_at) (ih (max init y.fetched_at))

theorem foldl_max_ge (l : List PriceSnapshot) (init : ℚ) :
    ∀ s ∈ l, s.fetched_at ≤ l.foldl (fun m s => max m s.fetched_at) init := by
  induction l generalizing init with
  | nil => intro s hs; simp at hs
  | cons y ys ih =>
    intro s hs
    rcases List.mem_cons.mp hs with rfl | hs1
    · exact le_trans (le_max_right init s.fetched_at)
        (foldl_max_init_le ys (max init s.fetched_at))
    · exact ih (max init y.fetched_at) s hs1

theorem foldl_max_mem (l : List PriceSnapshot) (init : ℚ) :
    l.foldl (fun m s => max m s.fetched_at) init = init
    ∨ l.foldl (fun m s => max m s.fetched_at) init ∈ l.map (fun s => s.fetched_at) := by
  induction l generalizing init with
  | nil => exact Or.inl rfl
  | cons y ys ih =>
    rcases ih (max init y.fetched_at) with h | h
    · rcases max_choice init y.fetched_at with hm | hm
      · left
        rw [List.foldl_cons, h, hm]
      · right
        rw [List.foldl_cons, h, hm]
        simp
    · right
      rw [List.foldl_cons]
      exact List.mem_cons_of_mem _ h

theorem maxFetchedAt_mem (x : PriceSnapshot) (rest : List PriceSnapshot) :
    GetAggregatedPricesUseCase.maxFetchedAt x rest
      ∈ (x :: rest).map (fun s => s.fetched_at) := by
  unfold GetAggregatedPricesUseCase.maxFetchedAt
  rcases foldl_max_mem rest x.fetched_at with h | h
  · rw [h]
    simp
  · exact List.mem_cons_of_mem _ h

theorem le_maxFetchedAt (x : PriceSnapshot) (rest : List PriceSnapshot) :
    ∀ s ∈ x :: rest, s.fetched_at ≤ GetAggregatedPricesUseCase.maxFetchedAt x rest := by
  intro s hs
  unfold GetAggregatedPricesUseCase.maxFetchedAt
  rcases List.mem_cons.mp hs with rfl | hs1
  · exact foldl_max_init_le rest s.fetched_at
  · exact foldl_max_ge rest x.fetched_at s hs1

/-- C8: for a resolved token and a non-empty snapshot set (with positive
prices), `execute` returns a view whose `last_updated` is the maximum
`fetched_at` over all input snapshots (stale ones included) and whose
`num_fresh_venues` recounts non-stale snapshots with the same staleness
predicate the Price Calculator used (the default wiring gives both the
same threshold). -/
theorem executeCore_last_updated_fresh_count (calcStale maxStale now : ℚ)
    (token : Token) (venues : ℤ → Option Venue) (bs qs : String)
    (includeStale : Bool) (snapshots : List PriceSnapshot)
    (hcalc : calcStale = maxStale)
    (htok : token.id ≠ none)
    (hpos : ∀ s ∈ snapshots, 0 < s.bid ∧ 0 < s.ask)
    (hne : snapshots ≠ []) :
    ∃ dto : AggregatedPricesDTO,
      GetAggregatedPricesUseCase.executeCore calcStale maxStale now token venues
        bs qs includeStale snapshots = .ok dto
      ∧ dto.last_updated ∈ snapshots.map (fun s => s.fetched_at)
      ∧ (∀ s ∈ snapshots, s.fetched_at ≤ dto.last_updated)
      ∧ dto.num_fresh_venues
          = (snapshots.filter (fun s => ! s.is_stale now maxStale)).length
      ∧ ∀ bp : BestPrices,
          PriceCalculator.calculate_best_prices maxStale now snapshots = some bp →
          bp.venues_count = dto.num_fresh_venues := by
  subst hcalc
  rcases snapshots with _ | ⟨x, rest⟩
  · exact absurd rfl hne
  obtain ⟨bp, hbp, hvc⟩ := calculate_best_prices_isSome calcStale now (x :: rest) hpos
  unfold GetAggregatedPricesUseCase.executeCore
  rw [if_neg htok]
  dsimp only
  rw [hbp]
  refine ⟨_, rfl, maxFetchedAt_mem x rest, le_maxFetchedAt x rest, rfl, ?_⟩
  intro bp2 hbp2
  have hbe : bp2 = bp := (Option.some.inj hbp2).symm
  rw [hbe]
  exact hvc

/-- C4 counterexample: at `bid = 99999974999999999999999999999999999.5`,
`ask = 100000025000000000000000000000000000.5` (both positive decimals),
the code yields percentage 0 while the exact formula quantized to 4
decimal places half-even yields 0.0001, so the two disagree. -/
theorem spread_calc_exact_formula_countereg :
    Spread.calculate (199999949999999999999999999999999999/2 : ℚ)
        (200000050000000000000000000000000001/2 : ℚ) = some ⟨0⟩
    ∧ qRound (1/10000)
        (((200000050000000000000000000000000001/2
            - 199999949999999999999999999999999999/2 : ℚ)
          / ((199999949999999999999999999999999999/2
              + 200000050000000000000000000000000001/2 : ℚ) / 2)) * 100) = 1/10000
    ∧ Spread.calculate (199999949999999999999999999999999999/2 : ℚ)
        (200000050000000000000000000000000001/2 : ℚ)
      ≠ some ⟨qRound (1/10000)
          (((200000050000000000000000000000000001/2
              - 199999949999999999999999999999999999/2 : ℚ)
            / ((199999949999999999999999999999999999/2
                + 200000050000000000000000000000000001/2 : ℚ) / 2)) * 100)⟩ := by
  refine ⟨spread_calc_bigtie, spread_exact_bigtie, ?_⟩
  rw [spread_calc_bigtie, spread_exact_bigtie]
  intro hcon
  have h1 := congrArg Spread.percentage (Option.some.inj hcon)
  norm_num at h1

/-! ### Concrete witnesses -/

theorem spread_calc_exact_of_bounded_witness :
    (0:ℤ) < 1000000 ∧ (1000000:ℤ) < 10^20
    ∧ Spread.calculate (((1000000:ℤ):ℚ)/10000) (((1000000:ℤ):ℚ)/10000)
      = some ⟨qRound (1/10000)
          (((((1000000:ℤ):ℚ)/10000 - ((1000000:ℤ):ℚ)/10000)
            / ((((1000000:ℤ):ℚ)/10000 + ((1000000:ℤ):ℚ)/10000) / 2)) * 100)⟩ :=
  ⟨by norm_num, by norm_num,
    spread_calc_exact_of_bounded 1000000 1000000 (by norm_num) (by norm_num)
      (by norm_num) (by norm_num)⟩

theorem calculate_best_prices_best_bid_ask_spec_witness :
    (∀ s ∈ ([⟨some 1, 1, 1, 100, 104, none, 100⟩,
             ⟨some 2, 1, 2, 102, 102, none, 100⟩,
             ⟨some 3, 1, 3, 105, 106, none, 10⟩] : List PriceSnapshot),
      0 < s.bid ∧ 0 < s.ask)
    ∧ ∃ bp : BestPrices,
        PriceCalculator.calculate_best_prices 60 100
          [⟨some 1, 1, 1, 100, 104, none, 100⟩,
           ⟨some 2, 1, 2, 102, 102, none, 100⟩,
           ⟨some 3, 1, 3, 105, 106, none, 10⟩] = some bp
        ∧ bp.venues_count = 2 ∧ bp.effective_spread.isSome = true := by
  have hpos : ∀ s ∈ ([⟨some 1, 1, 1, 100, 104, none, 100⟩,
      ⟨some 2, 1, 2, 102, 102, none, 100⟩,
      ⟨some 3, 1, 3, 105, 106, none, 10⟩] : List PriceSnapshot),
      0 < s.bid ∧ 0 < s.ask := by
    intro s hs
    simp only [List.mem_cons, List.not_mem_nil, or_false] at hs
    rcases hs with rfl | rfl | rfl <;> exact ⟨by norm_num, by norm_num⟩
  refine ⟨hpos, ?_⟩
  obtain ⟨bp, h1, b, a, _, _, _, _, _, _, hsp, hvc⟩ :=
    calculate_best_prices_best_bid_ask_spec 60 100
      [⟨some 1, 1, 1, 100, 104, none, 100⟩,
       ⟨some 2, 1, 2, 102, 102, none, 100⟩,
       ⟨some 3, 1, 3, 105, 106, none, 10⟩] hpos (by with_unfolding_all decide)
  refine ⟨bp, h1, ?_, hsp⟩
  rw [hvc]
  with_unfolding_all decide

theorem should_trigger_crossing_iff_witness :
    AlertPolicy.should_trigger 1000
      ⟨some 1, ⟨"user@example.com"⟩, 1, 2, AlertType.spread_below,
        AlertStatus.active, none, 0, 1⟩ ⟨3/2⟩ (some ⟨5/2⟩) = true := by
  have h := should_trigger_crossing_iff 1000
    ⟨some 1, ⟨"user@example.com"⟩, 1, 2, AlertType.spread_below,
      AlertStatus.active, none, 0, 1⟩ ⟨3/2⟩ ⟨5/2⟩ (by with_unfolding_all decide)
  exact h.1.mpr ⟨by norm_num, by norm_num⟩

theorem should_trigger_gate_and_cooldown_witness :
    (⟨some 1, ⟨"user@example.com"⟩, 1, 2, AlertType.spread_below,
        AlertStatus.paused, none, 0, 1⟩ : Alert).can_trigger 1000 = false
    ∧ AlertPolicy.should_trigger 1000
        ⟨some 1, ⟨"user@example.com"⟩, 1, 2, AlertType.spread_below,
          AlertStatus.paused, none, 0, 1⟩ ⟨3/2⟩ none = false := by
  have h := should_trigger_gate_and_cooldown 1000
    ⟨some 1, ⟨"user@example.com"⟩, 1, 2, AlertType.spread_below,
      AlertStatus.paused, none, 0, 1⟩ ⟨3/2⟩ none
  have hfalse : (⟨some 1, ⟨"user@example.com"⟩, 1, 2, AlertType.spread_below,
      AlertStatus.paused, none, 0, 1⟩ : Alert).can_trigger 1000 = false := by
    with_unfolding_all decide
  exact ⟨hfalse, h.1 hfalse⟩

theorem spread_calculate_error_iff_witness :
    Spread.calculate 0 100 = none
    ∧ ∃ s : Spread, Spread.calculate 2 1 = some s :=
  ⟨(spread_calculate_error_iff 0 100).1.mpr (Or.inl le_rfl),
   (spread_calculate_error_iff 2 1).2 (by norm_num) (by norm_num)⟩

theorem should_trigger_first_eval_iff_witness :
    AlertPolicy.should_trigger 1000
      ⟨some 1, ⟨"user@example.com"⟩, 1, 2, AlertType.spread_below,
        AlertStatus.active, none, 0, 1⟩ ⟨3/2⟩ none = true := by
  have h := should_trigger_first_eval_iff 1000
    ⟨some 1, ⟨"user@example.com"⟩, 1, 2, AlertType.spread_below,
      AlertStatus.active, none, 0, 1⟩ ⟨3/2⟩ (by with_unfolding_all decide)
  exact h.1.mpr (by norm_num)

theorem calculate_best_prices_all_stale_witness :
    PriceCalculator.calculate_best_prices 60 200
      [⟨some 1, 1, 1, 100, 101, none, 100⟩] = some ⟨none, none, none, 0⟩ :=
  calculate_best_prices_all_stale 60 200 [⟨some 1, 1, 1, 100, 101, none, 100⟩]
    (by
      intro s hs
      simp only [List.mem_singleton] at hs
      subst hs
      with_unfolding_all decide)

theorem executeCore_last_updated_fresh_count_witness :
    ∃ dto : AggregatedPricesDTO,
      GetAggregatedPricesUseCase.executeCore 60 60 100 ⟨some 1, "USDY", "Ondo USDY"⟩
        (fun _ => none) "USDY" "USD" true
        [⟨some 1, 1, 1, 100, 100, none, 90⟩] = .ok dto
      ∧ dto.last_updated = 90 ∧ dto.num_fresh_venues = 1 := by
  obtain ⟨dto, h1, hmem, _, hnum, _⟩ :=
    executeCore_last_updated_fresh_count 60 60 100 ⟨some 1, "USDY", "Ondo USDY"⟩
      (fun _ => none) "USDY" "USD" true [⟨some 1, 1, 1, 100, 100, none, 90⟩]
      rfl (by simp)
      (by
        intro s hs
        simp only [List.mem_singleton] at hs
        subst hs
        exact ⟨by norm_num, by norm_num⟩)
      (by simp)
  refine ⟨dto, h1, ?_, ?_⟩
  · simpa using hmem
  · rw [hnum]
    with_unfolding_all decide

theorem calculate_best_prices_tie_break_first_witness :
    ∃ bp : BestPrices, ∃ b a : PriceSnapshot,
      PriceCalculator.calculate_best_prices 60 100
        [⟨some 1, 1, 1, 100, 100, none, 100⟩,
         ⟨some 2, 1, 2, 100, 100, none, 100⟩] = some bp
      ∧ bp.best_bid = some b ∧ bp.best_ask = some a
      ∧ ([⟨some 1, 1, 1, 100, 100, none, 100⟩,
          ⟨some 2, 1, 2, 100, 100, none, 100⟩] : List PriceSnapshot).find?
          (fun s => decide (b.bid ≤ s.bid)) = some b
      ∧ ([⟨some 1, 1, 1, 100, 100, none, 100⟩,
          ⟨some 2, 1, 2, 100, 100, none, 100⟩] : List PriceSnapshot).find?
          (fun s => decide (s.ask ≤ a.ask)) = some a := by
  obtain ⟨bp, b, a, h1, hb, ha, _, _, hfb, hfa⟩ :=
    calculate_best_prices_tie_break_first 60 100
      [⟨some 1, 1, 1, 100, 100, none, 100⟩,
       ⟨some 2, 1, 2, 100, 100, none, 100⟩]
      (by
        intro s hs
        simp only [List.mem_cons, List.not_mem_nil, or_false] at hs
        rcases hs with rfl | rfl <;> exact ⟨by norm_num, by norm_num⟩)
      (by with_unfolding_all decide)
  have hfilter : ([⟨some 1, 1, 1, 100, 100, none, 100⟩,
      ⟨some 2, 1, 2, 100, 100, none, 100⟩] : List PriceSnapshot).filter
      (fun s => ! s.is_stale 100 60)
      = [⟨some 1, 1, 1, 100, 100, none, 100⟩,
         ⟨some 2, 1, 2, 100, 100, none, 100⟩] := by
    with_unfolding_all decide
  rw [hfilter] at hfb hfa
  exact ⟨bp, b, a, h1, hb, ha, hfb, hfa⟩

end RwaAgg
